import Mathlib

/-!
Verification of the SMTP client protocol core (src/src/Client.cpp) against its
natural-language specification.  The C++ code is shallowly embedded: byte
strings become `List Char`, the stateful client becomes an explicit state
record with a step function over events, fallible paths (C++ undefined
behaviour such as popping an empty queue or dereferencing a null pointer)
become `Option`, and `std::set` / `std::map` iteration is modelled by sorted
association lists, matching the lexicographic iteration order of the C++
containers.
-/

/-! ## Body processing (ProcessBody, Client.cpp lines 40-63)

The C++ loop walks the body one byte at a time with a `first` flag that is
true exactly at the start of an output line: LF emits CRLF and restarts the
line, CR is skipped entirely, any other byte is emitted (doubled when it is a
dot at the start of a line), and a final CRLF is appended when the body does
not end at a line start. -/

def processBodyAux : Bool → List Char → List Char
  | first, [] => if first then [] else ['\r', '\n']
  | first, c :: rest =>
    if c = '\n' then
      '\r' :: '\n' :: processBodyAux true rest
    else if c = '\r' then
      processBodyAux first rest
    else if first then
      (if c = '.' then ['.', c] else [c]) ++ processBodyAux false rest
    else
      c :: processBodyAux false rest

def ProcessBody (body : List Char) : List Char :=
  processBodyAux true body

/-- The condition tested in the SendingData stage (Client.cpp lines 607-612)
before emitting an extra CRLF: the processed body is shorter than two bytes or
does not end in CRLF. -/
def sendingDataExtraCRLF (body : List Char) : Bool :=
  if body.length < 2 then true
  else if body.drop (body.length - 2) = ['\r', '\n'] then false
  else true

/-- A byte string is accepted as a fixed point of `processBodyAux`: every line
ends with CRLF, no bare LF or bare CR occurs, and no line begins with a dot
when the flag marks a line start. -/
def fixedTail : Bool → List Char → Bool
  | first, [] => first
  | first, c :: rest =>
    if c = '\n' then false
    else if c = '\r' then
      match rest with
      | [] => false
      | c2 :: rest2 => if c2 = '\n' then fixedTail true rest2 else false
    else !(first && c = '.') && fixedTail false rest

/-- Input bodies none of whose lines (line structure as seen by
`processBodyAux`: LF ends a line, CR is ignored) begin with a dot. -/
def noDotLines : Bool → List Char → Bool
  | _, [] => true
  | first, c :: rest =>
    if c = '\n' then noDotLines true rest
    else if c = '\r' then noDotLines first rest
    else !(first && c = '.') && noDotLines false rest

theorem processBodyAux_lf (first : Bool) (rest : List Char) :
    processBodyAux first ('\n' :: rest) = '\r' :: '\n' :: processBodyAux true rest := by
  rw [processBodyAux]; simp

theorem processBodyAux_cr (first : Bool) (rest : List Char) :
    processBodyAux first ('\r' :: rest) = processBodyAux first rest := by
  rw [processBodyAux]; simp

theorem processBodyAux_other_true (c : Char) (rest : List Char)
    (hn : ¬c = '\n') (hr : ¬c = '\r') :
    processBodyAux true (c :: rest) =
      (if c = '.' then ['.', c] else [c]) ++ processBodyAux false rest := by
  rw [processBodyAux]; simp [hn, hr]

theorem processBodyAux_other_false (c : Char) (rest : List Char)
    (hn : ¬c = '\n') (hr : ¬c = '\r') :
    processBodyAux false (c :: rest) = c :: processBodyAux false rest := by
  rw [processBodyAux]; simp [hn, hr]

theorem fixedTail_crlf (first : Bool) (rest : List Char) :
    fixedTail first ('\r' :: '\n' :: rest) = fixedTail true rest := by
  rw [fixedTail.eq_def]; simp

theorem fixedTail_other (first : Bool) (c : Char) (rest : List Char)
    (hn : ¬c = '\n') (hr : ¬c = '\r') :
    fixedTail first (c :: rest) = (!(first && c = '.') && fixedTail false rest) := by
  rw [fixedTail.eq_def]; simp [hn, hr]

theorem noDotLines_lf (first : Bool) (rest : List Char) :
    noDotLines first ('\n' :: rest) = noDotLines true rest := by
  rw [noDotLines]; simp

theorem noDotLines_cr (first : Bool) (rest : List Char) :
    noDotLines first ('\r' :: rest) = noDotLines first rest := by
  rw [noDotLines]; simp

theorem noDotLines_other (first : Bool) (c : Char) (rest : List Char)
    (hn : ¬c = '\n') (hr : ¬c = '\r') :
    noDotLines first (c :: rest) = (!(first && c = '.') && noDotLines false rest) := by
  rw [noDotLines]; simp [hn, hr]

theorem fixedTail_fixed : ∀ (first : Bool) (s : List Char),
    fixedTail first s = true → processBodyAux first s = s := by
  intro first s
  induction first, s using fixedTail.induct with
  | case1 first =>
    intro h
    rw [fixedTail] at h
    simp [processBodyAux, h]
  | case2 first rest =>
    intro h
    rw [fixedTail.eq_def] at h
    simp at h
  | case3 first hne =>
    intro h
    rw [fixedTail.eq_def] at h
    simp at h
  | case4 first rest2 hne ih =>
    intro h
    rw [fixedTail.eq_def] at h
    have h' : fixedTail true rest2 = true := by simpa using h
    rw [processBodyAux]
    simp only [show (('\r' : Char) = '\n') = False by simp, if_false,
      show (('\r' : Char) = '\r') = True by simp, if_true]
    rw [processBodyAux]
    simp only [show (('\n' : Char) = '\n') = True by simp, if_true]
    rw [ih h']
  | case5 first c2 rest2 hn2 hne =>
    intro h
    rw [fixedTail.eq_def] at h
    simp [hn2] at h
  | case6 first c rest hn hr ih =>
    intro h
    rw [fixedTail.eq_def] at h
    have h' : (!(first && decide (c = '.')) && fixedTail false rest) = true := by
      simpa [hn, hr] using h
    rw [Bool.and_eq_true] at h'
    obtain ⟨hdotneg, htail⟩ := h'
    rw [processBodyAux]
    simp only [if_neg hn, if_neg hr]
    by_cases hfst : first
    · subst hfst
      have hc : ¬(c = '.') := by simpa using hdotneg
      simp only [if_true, if_neg hc, List.singleton_append]
      rw [ih htail]
    · have hfalse : first = false := by
        cases first
        · rfl
        · exact absurd rfl hfst
      subst hfalse
      simp only [Bool.false_eq_true, if_false]
      rw [ih htail]

theorem noDotLines_fixedTail : ∀ (s : List Char) (first : Bool),
    noDotLines first s = true → fixedTail first (processBodyAux first s) = true := by
  intro s
  induction s with
  | nil =>
    intro first _
    cases first
    · simp [processBodyAux, fixedTail_crlf, fixedTail]
    · simp [processBodyAux, fixedTail]
  | cons c rest ih =>
    intro first h
    by_cases hn : c = '\n'
    · subst hn
      rw [noDotLines_lf] at h
      rw [processBodyAux_lf, fixedTail_crlf]
      exact ih true h
    · by_cases hr : c = '\r'
      · subst hr
        rw [noDotLines_cr] at h
        rw [processBodyAux_cr]
        exact ih first h
      · rw [noDotLines_other first c rest hn hr, Bool.and_eq_true] at h
        obtain ⟨hdotneg, htail⟩ := h
        have tail_ok : fixedTail false (processBodyAux false rest) = true := ih false htail
        by_cases hfst : first
        · subst hfst
          have hc : ¬(c = '.') := by
            intro hcontra
            simp [hcontra] at hdotneg
          rw [processBodyAux_other_true c rest hn hr]
          simp only [if_neg hc, List.singleton_append]
          rw [fixedTail_other true c _ hn hr]
          simp [tail_ok, hc]
        · have hfalse : first = false := by
            cases first
            · rfl
            · exact absurd rfl hfst
          subst hfalse
          rw [processBodyAux_other_false c rest hn hr]
          rw [fixedTail_other false c _ hn hr]
          simp [tail_ok]

theorem processBodyAux_filter_cr (s : List Char) :
    ∀ first, processBodyAux first (s.filter (fun c => !(c = '\r'))) =
      processBodyAux first s := by
  induction s with
  | nil => intro first; rfl
  | cons c rest ih =>
    intro first
    by_cases hr : c = '\r'
    · subst hr
      rw [processBodyAux_cr]
      rw [List.filter]
      simp only [show ((!(('\r' : Char) = '\r') : Bool)) = false by simp]
      exact ih first
    · rw [List.filter]
      simp only [show ((!decide (c = '\r') : Bool)) = true by simp [hr]]
      by_cases hn : c = '\n'
      · subst hn
        rw [processBodyAux_lf, processBodyAux_lf, ih true]
      · by_cases hfst : first
        · subst hfst
          rw [processBodyAux_other_true c _ hn hr, processBodyAux_other_true c _ hn hr,
            ih false]
        · have hfalse : first = false := by
            cases first
            · rfl
            · exact absurd rfl hfst
          subst hfalse
          rw [processBodyAux_other_false c _ hn hr, processBodyAux_other_false c _ hn hr,
            ih false]

/-- The processed body either is empty (possible only when processing ends at
a line start) or ends in CRLF. -/
theorem processBodyAux_ends (s : List Char) : ∀ first,
    (processBodyAux first s = [] ∧ first = true) ∨
      ∃ p, processBodyAux first s = p ++ ['\r', '\n'] := by
  induction s with
  | nil =>
    intro first
    cases first
    · right; exact ⟨[], rfl⟩
    · left; exact ⟨rfl, rfl⟩
  | cons c rest ih =>
    intro first
    by_cases hn : c = '\n'
    · subst hn
      rw [processBodyAux_lf]
      rcases ih true with ⟨hempty, _⟩ | ⟨p, hp⟩
      · right
        refine ⟨[], ?_⟩
        simp [hempty]
      · right
        refine ⟨'\r' :: '\n' :: p, ?_⟩
        rw [hp]
        rfl
    · by_cases hr : c = '\r'
      · subst hr
        rw [processBodyAux_cr]
        exact ih first
      · rcases ih false with ⟨_, hfalse⟩ | ⟨p, hp⟩
        · exact absurd hfalse (by simp)
        · by_cases hfst : first
          · subst hfst
            rw [processBodyAux_other_true c rest hn hr]
            right
            refine ⟨(if c = '.' then ['.', c] else [c]) ++ p, ?_⟩
            simp only [hp, List.append_assoc]
          · have hfalse : first = false := by
              cases first
              · rfl
              · exact absurd rfl hfst
            subst hfalse
            rw [processBodyAux_other_false c rest hn hr]
            right
            refine ⟨c :: p, ?_⟩
            rw [hp]
            rfl

/-- Claim C7 counterexample: body normalization is not idempotent.  The body
consisting of a single dot is processed to two dots plus CRLF, and processing
that again yields three dots plus CRLF: dot-stuffing doubles the leading dot a
second time. -/
theorem smtp_c7_counterexample :
    ProcessBody ['.'] = ['.', '.', '\r', '\n'] ∧
      ProcessBody (ProcessBody ['.']) = ['.', '.', '.', '\r', '\n'] ∧
      ProcessBody (ProcessBody ['.']) ≠ ProcessBody ['.'] := by
  refine ⟨rfl, rfl, ?_⟩
  decide

/-- Claim C7 amended: body processing is idempotent on bodies none of whose
lines begin with a dot; in general dot-stuffing re-doubles leading dots, so
idempotence fails (see the counterexample at the single-dot body). -/
theorem smtp_c7_amended (b : List Char) (h : noDotLines true b = true) :
    ProcessBody (ProcessBody b) = ProcessBody b := by
  unfold ProcessBody
  exact fixedTail_fixed true (processBodyAux true b) (noDotLines_fixedTail b true h)

theorem smtp_c7_amended_witness :
    noDotLines true ['h', 'i', '\n'] = true ∧
      ProcessBody (ProcessBody ['h', 'i', '\n']) = ProcessBody ['h', 'i', '\n'] :=
  ⟨by decide, smtp_c7_amended ['h', 'i', '\n'] (by decide)⟩

/-- Claim C8 counterexample: a bare CR inside the body is deleted, not turned
into a CRLF line boundary.  The body consisting of the bytes a, CR, b is
processed to the bytes a, b, CR, LF (one joined line), not to a, CR, LF, b,
CR, LF (two lines). -/
theorem smtp_c8_counterexample :
    ProcessBody ['a', '\r', 'b'] = ['a', 'b', '\r', '\n'] ∧
      ProcessBody ['a', '\r', 'b'] ≠ ['a', '\r', '\n', 'b', '\r', '\n'] := by
  refine ⟨rfl, ?_⟩
  decide

/-- Claim C8 amended: LF line endings (alone or as part of CRLF) are converted
to CRLF, but bare CR bytes are simply erased: processing any body gives the
same result as first deleting every CR byte and then processing.  In
particular the CR in the body a, CR, b is deleted, joining the text into one
line. -/
theorem smtp_c8_amended :
    (∀ b : List Char,
        ProcessBody b = ProcessBody (b.filter (fun c => !(c = '\r')))) ∧
      ProcessBody ['a', '\r', 'b'] = ['a', 'b', '\r', '\n'] := by
  constructor
  · intro b
    unfold ProcessBody
    exact (processBodyAux_filter_cr b true).symm
  · rfl

/-- Claim C10 confirmed: the processed body is either empty or ends with CRLF,
and the SendingData stage's extra-CRLF test (body length below two, or last
two bytes not CRLF) succeeds on a processed body exactly when that body is
empty. -/
theorem smtp_c10_processed_body_terminator (b : List Char) :
    (ProcessBody b = [] ∨ ∃ p, ProcessBody b = p ++ ['\r', '\n']) ∧
      (sendingDataExtraCRLF (ProcessBody b) = true ↔ ProcessBody b = []) := by
  have h := processBodyAux_ends b true
  unfold ProcessBody
  rcases h with ⟨hempty, _⟩ | ⟨p, hp⟩
  · constructor
    · left; exact hempty
    · rw [hempty]; simp [sendingDataExtraCRLF]
  · constructor
    · right; exact ⟨p, hp⟩
    · rw [hp]
      constructor
      · intro hcond
        exfalso
        rw [sendingDataExtraCRLF] at hcond
        have hlen : (p ++ ['\r', '\n']).length = p.length + 2 := by simp
        have hnot : ¬(p ++ ['\r', '\n']).length < 2 := by omega
        rw [if_neg hnot] at hcond
        have hdrop : (p ++ ['\r', '\n']).drop ((p ++ ['\r', '\n']).length - 2) =
            ['\r', '\n'] := by
          rw [hlen]
          simp only [Nat.add_sub_cancel]
          exact List.drop_left p ['\r', '\n']
        rw [if_pos hdrop] at hcond
        exact Bool.false_ne_true hcond
      · intro habs
        exact absurd habs (by simp)

/-! ## Line reassembly (AssembleLinesReceived, Client.cpp lines 333-367)

The C++ loop repeatedly searches the buffer for the FIRST CR byte
(`std::find`), breaks out of the loop if there is none, if it is the last
byte, or if the byte after it is not LF, and otherwise removes the prefix up
to and including that CR LF pair as one line.  `findCRSplit` models the
`std::find` call, `extractLine` one loop iteration, and `assembleLinesFuel`
the loop (the fuel `buf.length` dominates the iteration count, since every
iteration removes at least two bytes; `extractLine_none_final` below shows
the loop indeed runs to completion). -/

def findCRSplit : List Char → List Char × List Char
  | [] => ([], [])
  | c :: rest =>
    if c = '\r' then ([], c :: rest)
    else
      let p := findCRSplit rest
      (c :: p.1, p.2)

def extractLine (buf : List Char) : Option (List Char × List Char) :=
  match findCRSplit buf with
  | (_, []) => none
  | (_, [_]) => none
  | (pre, c1 :: c2 :: rest) =>
    if c2 = '\n' then some (pre ++ [c1, c2], rest) else none

def assembleLinesFuel : Nat → List Char → List (List Char) × List Char
  | 0, buf => ([], buf)
  | fuel + 1, buf =>
    match extractLine buf with
    | none => ([], buf)
    | some lr =>
      let r := assembleLinesFuel fuel lr.2
      (lr.1 :: r.1, r.2)

def assembleLines (buf : List Char) : List (List Char) × List Char :=
  assembleLinesFuel buf.length buf

/-- The embedding of `AssembleLinesReceived`: append the newly received data
to the reassembly buffer, then extract all completed lines, returning the
lines and the remaining buffer. -/
def AssembleLinesReceived (buffer data : List Char) : List (List Char) × List Char :=
  assembleLines (buffer ++ data)

theorem findCRSplit_append (l : List Char) :
    (findCRSplit l).1 ++ (findCRSplit l).2 = l := by
  induction l with
  | nil => rfl
  | cons c rest ih =>
    rw [findCRSplit]
    by_cases hr : c = '\r'
    · simp [hr]
    · simp only [if_neg hr]
      simpa using ih

theorem findCRSplit_clean (pre : List Char) (tail : List Char)
    (h : ∀ c ∈ pre, ¬c = '\r') :
    findCRSplit (pre ++ '\r' :: tail) = (pre, '\r' :: tail) := by
  induction pre with
  | nil =>
    rw [List.nil_append, findCRSplit]
    simp
  | cons c rest ih =>
    have hc : ¬c = '\r' := h c (by simp)
    rw [List.cons_append, findCRSplit]
    simp only [if_neg hc]
    rw [ih (fun x hx => h x (by simp [hx]))]

theorem extractLine_eq_two (buf pre : List Char) (c1 c2 : Char) (t : List Char)
    (hsplit : findCRSplit buf = (pre, c1 :: c2 :: t)) :
    extractLine buf = if c2 = '\n' then some (pre ++ [c1, c2], t) else none := by
  rw [extractLine, hsplit]

theorem extractLine_eq_nil (buf pre : List Char)
    (hsplit : findCRSplit buf = (pre, [])) : extractLine buf = none := by
  rw [extractLine, hsplit]

theorem extractLine_eq_one (buf pre : List Char) (c1 : Char)
    (hsplit : findCRSplit buf = (pre, [c1])) : extractLine buf = none := by
  rw [extractLine, hsplit]

theorem extractLine_some_length (buf line rest : List Char)
    (h : extractLine buf = some (line, rest)) :
    rest.length + 2 ≤ buf.length := by
  have happ := findCRSplit_append buf
  rcases hsplit : findCRSplit buf with ⟨pre, tail⟩
  rw [hsplit] at happ
  simp only [] at happ
  rcases tail with _ | ⟨c1, tail1⟩
  · rw [extractLine_eq_nil buf pre hsplit] at h
    simp at h
  · rcases tail1 with _ | ⟨c2, t⟩
    · rw [extractLine_eq_one buf pre c1 hsplit] at h
      simp at h
    · rw [extractLine_eq_two buf pre c1 c2 t hsplit] at h
      by_cases hn : c2 = '\n'
      · rw [if_pos hn] at h
        have hrest : t = rest := by
          have := congrArg (fun o => Option.map Prod.snd o) h
          simpa using this
        have hblen : pre.length + (t.length + 2) = buf.length := by
          rw [← happ]
          simp only [List.length_append, List.length_cons]
        have ht : t.length = rest.length := by rw [hrest]
        omega
      · simp [hn] at h

theorem assembleLinesFuel_nil (fuel : Nat) : assembleLinesFuel fuel [] = ([], []) := by
  cases fuel with
  | zero => rfl
  | succ n => rfl

theorem assembleLinesFuel_succ_none (fuel : Nat) (buf : List Char)
    (h : extractLine buf = none) :
    assembleLinesFuel (fuel + 1) buf = ([], buf) := by
  rw [assembleLinesFuel, h]

theorem assembleLinesFuel_succ_some (fuel : Nat) (buf line rest : List Char)
    (h : extractLine buf = some (line, rest)) :
    assembleLinesFuel (fuel + 1) buf =
      (line :: (assembleLinesFuel fuel rest).1, (assembleLinesFuel fuel rest).2) := by
  rw [assembleLinesFuel, h]

theorem assembleLinesFuel_irrel : ∀ (f g : Nat) (buf : List Char),
    buf.length ≤ f → buf.length ≤ g →
      assembleLinesFuel f buf = assembleLinesFuel g buf := by
  intro f
  induction f with
  | zero =>
    intro g buf hf hg
    have : buf = [] := by
      cases buf with
      | nil => rfl
      | cons c r => simp at hf
    subst this
    rw [assembleLinesFuel_nil, assembleLinesFuel_nil]
  | succ n ih =>
    intro g buf hf hg
    cases g with
    | zero =>
      have : buf = [] := by
        cases buf with
        | nil => rfl
        | cons c r => simp at hg
      subst this
      rw [assembleLinesFuel_nil, assembleLinesFuel_nil]
    | succ m =>
      rcases hext : extractLine buf with _ | ⟨line, rest⟩
      · rw [assembleLinesFuel_succ_none n buf hext, assembleLinesFuel_succ_none m buf hext]
      · have hlen := extractLine_some_length buf line rest hext
        rw [assembleLinesFuel_succ_some n buf line rest hext,
          assembleLinesFuel_succ_some m buf line rest hext,
          ih m rest (by omega) (by omega)]

theorem extractLine_none_final : ∀ (f : Nat) (buf : List Char),
    buf.length ≤ f → extractLine (assembleLinesFuel f buf).2 = none := by
  intro f
  induction f with
  | zero =>
    intro buf hf
    have : buf = [] := by
      cases buf with
      | nil => rfl
      | cons c r => simp at hf
    subst this
    rw [assembleLinesFuel_nil]
    rfl
  | succ n ih =>
    intro buf hf
    rcases hext : extractLine buf with _ | ⟨line, rest⟩
    · rw [assembleLinesFuel_succ_none n buf hext]
      exact hext
    · have hlen := extractLine_some_length buf line rest hext
      rw [assembleLinesFuel_succ_some n buf line rest hext]
      exact ih rest (by omega)

/-- Claim C2 counterexample: the buffer a, CR, b, CR, LF contains a CR
immediately followed by an LF (its last two bytes), yet the reassembler
extracts no line at all and leaves the buffer untouched, because the FIRST CR
in the buffer (followed by the byte b) stops the scan. -/
theorem smtp_c2_counterexample :
    ['a', '\r', 'b', '\r', '\n'] = ['a', '\r', 'b'] ++ ['\r', '\n'] ∧
      assembleLines ['a', '\r', 'b', '\r', '\n'] =
        ([], ['a', '\r', 'b', '\r', '\n']) ∧
      (assembleLines ['a', '\r', 'b', '\r', '\n']).1 ≠
        [['a', '\r', 'b', '\r', '\n']] := by
  refine ⟨rfl, by decide, by decide⟩

/-- Claim C2 amended: extraction is driven by the FIRST CR in the buffer.
While the first CR is immediately followed by LF, the prefix up to and
including that CRLF is extracted as one line (first conjunct); when one
iteration cannot extract (no CR, CR as last byte, or first CR not followed by
LF — exactly when `extractLine` returns none) the buffer is left untouched,
even if a complete CRLF pair occurs later (second conjunct); and the loop
always runs until no further extraction is possible (third conjunct). -/
theorem smtp_c2_amended (pre rest buf : List Char)
    (hpre : ∀ c ∈ pre, ¬c = '\r') (hnone : extractLine buf = none) :
    assembleLines (pre ++ '\r' :: '\n' :: rest) =
        ((pre ++ ['\r', '\n']) :: (assembleLines rest).1, (assembleLines rest).2) ∧
      assembleLines buf = ([], buf) ∧
      extractLine (assembleLines buf).2 = none := by
  refine ⟨?_, ?_, ?_⟩
  · have hext : extractLine (pre ++ '\r' :: '\n' :: rest) =
        some (pre ++ ['\r', '\n'], rest) := by
      rw [extractLine, findCRSplit_clean pre ('\n' :: rest) hpre]
      simp
    have hlen : (pre ++ '\r' :: '\n' :: rest).length =
        (pre.length + rest.length + 1) + 1 := by
      simp only [List.length_append, List.length_cons]
      omega
    rw [assembleLines, hlen,
      assembleLinesFuel_succ_some (pre.length + rest.length + 1) _ _ _ hext,
      assembleLinesFuel_irrel (pre.length + rest.length + 1) rest.length rest
        (by omega) (Nat.le_refl rest.length)]
    rfl
  · rw [assembleLines]
    cases hb : buf.length with
    | zero => rfl
    | succ n => rw [assembleLinesFuel_succ_none n buf hnone]
  · exact extractLine_none_final buf.length buf (Nat.le_refl buf.length)

theorem smtp_c2_amended_witness :
    (∀ c ∈ ['a'], ¬c = '\r') ∧ extractLine ['x', '\r'] = none ∧
      assembleLines ['a', '\r', '\n', 'o', 'k'] =
          ((['a', '\r', '\n']) :: (assembleLines ['o', 'k']).1,
            (assembleLines ['o', 'k']).2) ∧
        assembleLines ['x', '\r'] = ([], ['x', '\r']) ∧
        extractLine (assembleLines ['x', '\r']).2 = none := by
  have h := smtp_c2_amended ['a'] ['o', 'k'] ['x', '\r'] (by decide) (by decide)
  exact ⟨by decide, by decide, h.1, h.2.1, h.2.2⟩

/-! ## Reply parsing (DisassembleMessagesReceived, Client.cpp lines 387-426)

Each line must have length at least 4 and a leading integer readable by
`sscanf(line, "%d", ...)`: optional C whitespace, an optional sign, then at
least one decimal digit (`sscanfInt` models this conversion).  The byte at
index 3 selects between a continuation line (dash) and a final line (space);
anything else is a hard failure.  The text is `substr(4, length - 6)` with
C++ `size_t` wraparound when the length is 4 or 5 (`replyText`). -/

structure ParsedMessage where
  code : Int
  last : Bool
  text : List Char
deriving DecidableEq

/-- The characters accepted by `isspace` in the C locale. -/
def isSpaceChar (c : Char) : Bool :=
  c = ' ' || c = '\t' || c = '\n' || c = Char.ofNat 11 || c = Char.ofNat 12 || c = '\r'

def scanDigits : Nat → List Char → Nat
  | acc, [] => acc
  | acc, c :: rest =>
    if c.isDigit then scanDigits (acc * 10 + (c.toNat - 48)) rest else acc

def headIsDigit : List Char → Bool
  | [] => false
  | c :: _ => c.isDigit

/-- The integer read by a C `%d` conversion from the start of the string:
skip whitespace, then an optional sign, then at least one digit; `none` when
no digit is found (the conversion fails and `sscanf` returns 0). -/
def sscanfInt (s : List Char) : Option Int :=
  match s.dropWhile isSpaceChar with
  | [] => none
  | c :: rest =>
    if c = '+' then
      if headIsDigit rest then some ((scanDigits 0 rest : Nat) : Int) else none
    else if c = '-' then
      if headIsDigit rest then some (-((scanDigits 0 rest : Nat) : Int)) else none
    else if c.isDigit then
      some ((scanDigits 0 (c :: rest) : Nat) : Int)
    else none

/-- `line.substr(4, line.length() - 6)` with `size_t` arithmetic: for lengths
4 and 5 the count wraps around to a huge value and `substr` returns the whole
remainder. -/
def replyText (line : List Char) : List Char :=
  if line.length < 6 then line.drop 4
  else (line.drop 4).take (line.length - 6)

def fourthByte (s : List Char) : Option Char :=
  s[3]?

def disassembleLine (line : List Char) : Option ParsedMessage :=
  if line.length < 4 then none
  else
    match sscanfInt line with
    | none => none
    | some code =>
      match fourthByte line with
      | none => none
      | some c =>
        if c = '-' then some ⟨code, false, replyText line⟩
        else if c = ' ' then some ⟨code, true, replyText line⟩
        else none

/-- Parse all reassembled lines; `none` models the hard-failure path, in
which no parsed message at all is delivered to the state machine. -/
def disassembleAll : List (List Char) → Option (List ParsedMessage)
  | [] => some []
  | l :: rest =>
    match disassembleLine l with
    | none => none
    | some m =>
      match disassembleAll rest with
      | none => none
      | some ms => some (m :: ms)

/-- The acceptance condition stated by the claim: the first three characters
are decimal digits. -/
def threeDigitStart : List Char → Bool
  | d1 :: d2 :: d3 :: _ => d1.isDigit && d2.isDigit && d3.isDigit
  | _ => false

/-- The acceptance condition actually implemented: after optional C
whitespace and an optional sign there is at least one decimal digit. -/
def intTokenStart (s : List Char) : Bool :=
  match s.dropWhile isSpaceChar with
  | [] => false
  | c :: rest =>
    if c = '+' then headIsDigit rest
    else if c = '-' then headIsDigit rest
    else c.isDigit

theorem sscanfInt_eq_nil (s : List Char) (h : s.dropWhile isSpaceChar = []) :
    sscanfInt s = none := by
  rw [sscanfInt, h]

theorem sscanfInt_eq_cons (s : List Char) (c : Char) (rest : List Char)
    (h : s.dropWhile isSpaceChar = c :: rest) :
    sscanfInt s =
      (if c = '+' then
        if headIsDigit rest then some ((scanDigits 0 rest : Nat) : Int) else none
      else if c = '-' then
        if headIsDigit rest then some (-((scanDigits 0 rest : Nat) : Int)) else none
      else if c.isDigit then some ((scanDigits 0 (c :: rest) : Nat) : Int)
      else none) := by
  rw [sscanfInt, h]

theorem intTokenStart_eq_nil (s : List Char) (h : s.dropWhile isSpaceChar = []) :
    intTokenStart s = false := by
  rw [intTokenStart, h]

theorem intTokenStart_eq_cons (s : List Char) (c : Char) (rest : List Char)
    (h : s.dropWhile isSpaceChar = c :: rest) :
    intTokenStart s =
      (if c = '+' then headIsDigit rest
      else if c = '-' then headIsDigit rest
      else c.isDigit) := by
  rw [intTokenStart, h]

theorem sscanfInt_isSome (s : List Char) :
    (sscanfInt s).isSome = intTokenStart s := by
  rcases hdrop : s.dropWhile isSpaceChar with _ | ⟨c, rest⟩
  · rw [sscanfInt_eq_nil s hdrop, intTokenStart_eq_nil s hdrop]
    rfl
  · rw [sscanfInt_eq_cons s c rest hdrop, intTokenStart_eq_cons s c rest hdrop]
    by_cases hp : c = '+'
    · simp only [if_pos hp]
      cases headIsDigit rest <;> simp
    · by_cases hm : c = '-'
      · simp only [if_neg hp, if_pos hm]
        cases headIsDigit rest <;> simp
      · simp only [if_neg hp, if_neg hm]
        cases hd : c.isDigit <;> simp

theorem disassembleLine_short (line : List Char) (h : line.length < 4) :
    disassembleLine line = none := by
  rw [disassembleLine, if_pos h]

theorem disassembleLine_noInt (line : List Char) (h : ¬line.length < 4)
    (hscan : sscanfInt line = none) : disassembleLine line = none := by
  rw [disassembleLine, if_neg h, hscan]

theorem disassembleLine_eq (line : List Char) (code : Int) (c : Char)
    (h : ¬line.length < 4) (hscan : sscanfInt line = some code)
    (hc : fourthByte line = some c) :
    disassembleLine line =
      (if c = '-' then some ⟨code, false, replyText line⟩
      else if c = ' ' then some ⟨code, true, replyText line⟩
      else none) := by
  rw [disassembleLine, if_neg h, hscan, hc]

theorem digit_not_space (c : Char) (h : c.isDigit = true) : isSpaceChar c = false := by
  have h1 : ¬c = ' ' := by intro he; rw [he] at h; exact absurd h (by decide)
  have h2 : ¬c = '\t' := by intro he; rw [he] at h; exact absurd h (by decide)
  have h3 : ¬c = '\n' := by intro he; rw [he] at h; exact absurd h (by decide)
  have h4 : ¬c = Char.ofNat 11 := by intro he; rw [he] at h; exact absurd h (by decide)
  have h5 : ¬c = Char.ofNat 12 := by intro he; rw [he] at h; exact absurd h (by decide)
  have h6 : ¬c = '\r' := by intro he; rw [he] at h; exact absurd h (by decide)
  simp [isSpaceChar, h1, h2, h3, h4, h5, h6]

theorem digit_not_plus (c : Char) (h : c.isDigit = true) : ¬c = '+' := by
  intro he; subst he; exact absurd h (by decide)

theorem digit_not_minus (c : Char) (h : c.isDigit = true) : ¬c = '-' := by
  intro he; subst he; exact absurd h (by decide)

/-- Claim C4 counterexample: the line SP 2 5 dash a b CR LF does not begin
with three decimal digits (its first byte is a space), yet the parser accepts
it, because `sscanf` with `%d` skips leading whitespace: the parse yields
code 25, a continuation line with text a b — not a hard failure. -/
theorem smtp_c4_counterexample :
    threeDigitStart [' ', '2', '5', '-', 'a', 'b', '\r', '\n'] = false ∧
      disassembleLine [' ', '2', '5', '-', 'a', 'b', '\r', '\n'] =
        some ⟨25, false, ['a', 'b']⟩ := by
  constructor
  · decide
  · decide

/-- Claim C4 amended: the parser rejects every line shorter than 4 bytes; on
a line that does begin with three decimal digits it behaves exactly as the
claim states (the code is the three-digit value, dash means continuation,
space means final, anything else at index 3 is a hard failure); but the
acceptance condition on the integer prefix is weaker than claimed: a line is
accepted if and only if it has length at least 4, it starts — after optional
C whitespace and an optional sign — with at least one decimal digit, and its
fourth byte is a dash or a space. -/
theorem smtp_c4_amended :
    (∀ line : List Char, line.length < 4 → disassembleLine line = none) ∧
      (∀ (d1 d2 d3 : Char) (rest : List Char),
        d1.isDigit = true → d2.isDigit = true → d3.isDigit = true →
          (disassembleLine (d1 :: d2 :: d3 :: '-' :: rest) =
            some ⟨(((d1.toNat - 48) * 100 + (d2.toNat - 48) * 10 + (d3.toNat - 48) : Nat) : Int),
              false, replyText (d1 :: d2 :: d3 :: '-' :: rest)⟩) ∧
          (disassembleLine (d1 :: d2 :: d3 :: ' ' :: rest) =
            some ⟨(((d1.toNat - 48) * 100 + (d2.toNat - 48) * 10 + (d3.toNat - 48) : Nat) : Int),
              true, replyText (d1 :: d2 :: d3 :: ' ' :: rest)⟩) ∧
          (∀ c : Char, ¬c = '-' → ¬c = ' ' →
            disassembleLine (d1 :: d2 :: d3 :: c :: rest) = none)) ∧
      (∀ line : List Char,
        (disassembleLine line).isSome =
          (decide (4 ≤ line.length) && intTokenStart line &&
            (fourthByte line == some '-' || fourthByte line == some ' '))) := by
  refine ⟨?_, ?_, ?_⟩
  · intro line h
    exact disassembleLine_short line h
  · intro d1 d2 d3 rest h1 h2 h3
    have hscan : ∀ (x : Char), x.isDigit = false →
        ∀ tail : List Char, sscanfInt (d1 :: d2 :: d3 :: x :: tail) =
          some (((d1.toNat - 48) * 100 + (d2.toNat - 48) * 10 + (d3.toNat - 48) : Nat) : Int) := by
      intro x hx tail
      have hdrop : (d1 :: d2 :: d3 :: x :: tail).dropWhile isSpaceChar =
          d1 :: d2 :: d3 :: x :: tail := by
        rw [List.dropWhile_cons_of_neg]
        simp [digit_not_space d1 h1]
      rw [sscanfInt_eq_cons _ d1 _ hdrop]
      rw [if_neg (digit_not_plus d1 h1), if_neg (digit_not_minus d1 h1), if_pos h1]
      congr 1
      rw [scanDigits, if_pos h1, scanDigits, if_pos h2, scanDigits, if_pos h3,
        scanDigits, hx]
      push_cast
      ring_nf
    refine ⟨?_, ?_, ?_⟩
    · have hlen : ¬(d1 :: d2 :: d3 :: '-' :: rest).length < 4 := by simp
      rw [disassembleLine_eq _ _ '-' hlen (hscan '-' (by decide) rest) (by simp [fourthByte])]
      simp
    · have hlen : ¬(d1 :: d2 :: d3 :: ' ' :: rest).length < 4 := by simp
      rw [disassembleLine_eq _ _ ' ' hlen (hscan ' ' (by decide) rest) (by simp [fourthByte])]
      simp
    · intro c hdash hsp
      by_cases hcd : c.isDigit
      · have hlen : ¬(d1 :: d2 :: d3 :: c :: rest).length < 4 := by simp
        have hdrop : (d1 :: d2 :: d3 :: c :: rest).dropWhile isSpaceChar =
            d1 :: d2 :: d3 :: c :: rest := by
          rw [List.dropWhile_cons_of_neg]
          simp [digit_not_space d1 h1]
        have hscanq : (sscanfInt (d1 :: d2 :: d3 :: c :: rest)).isSome = true := by
          rw [sscanfInt_isSome, intTokenStart_eq_cons _ d1 _ hdrop,
            if_neg (digit_not_plus d1 h1), if_neg (digit_not_minus d1 h1)]
          exact h1
        rcases hs : sscanfInt (d1 :: d2 :: d3 :: c :: rest) with _ | ⟨code⟩
        · rw [hs] at hscanq; simp at hscanq
        · rw [disassembleLine_eq _ code c hlen hs (by simp [fourthByte])]
          rw [if_neg hdash, if_neg hsp]
      · have hlen : ¬(d1 :: d2 :: d3 :: c :: rest).length < 4 := by simp
        rw [disassembleLine_eq _ _ c hlen
          (hscan c (by simpa using hcd) rest) (by simp [fourthByte])]
        rw [if_neg hdash, if_neg hsp]
  · intro line
    by_cases hlen : line.length < 4
    · rw [disassembleLine_short line hlen]
      have h4 : (decide (4 ≤ line.length)) = false := by
        simp only [decide_eq_false_iff_not]
        omega
      simp [h4]
    · have h4 : (decide (4 ≤ line.length)) = true := by
        simp only [decide_eq_true_eq]
        omega
      rcases hscan : sscanfInt line with _ | ⟨code⟩
      · rw [disassembleLine_noInt line hlen hscan]
        have hint : intTokenStart line = false := by
          rw [← sscanfInt_isSome, hscan]
          rfl
        simp [hint]
      · have hint : intTokenStart line = true := by
          rw [← sscanfInt_isSome, hscan]
          rfl
        rcases hc : fourthByte line with _ | ⟨c⟩
        · exfalso
          have h3 : 3 < line.length := by omega
          rw [fourthByte, List.getElem?_eq_getElem h3] at hc
          exact Option.noConfusion hc
        · rw [disassembleLine_eq line code c hlen hscan hc]
          by_cases hdash : c = '-'
          · simp [hdash, hint, h4, hc]
          · by_cases hsp : c = ' '
            · simp [hsp, hdash, hint, h4, hc]
            · simp [hdash, hsp, hint, h4, hc]

theorem smtp_c4_amended_witness :
    disassembleLine ['2', '5', '0', ' ', 'O', 'K', '\r', '\n'] =
        some ⟨250, true, ['O', 'K']⟩ ∧
      disassembleLine ['x'] = none := by
  constructor
  · have h := (smtp_c4_amended.2.1 '2' '5' '0' ['O', 'K', '\r', '\n']
      (by decide) (by decide) (by decide)).2.1
    rw [h]
    decide
  · exact smtp_c4_amended.1 ['x'] (by decide)

/-! ## Client state machine (Client::Impl, Client.cpp lines 104-805)

The client state holds every `Client::Impl` field that the protocol logic
reads or writes.  Extension handlers are modelled as records of pure hooks
(the C++ objects may carry private state, which no claim here depends on);
the `GoAhead` callback pair is modelled by delivering the extension's
`onStageComplete` invocation as a separate `ClientEvent`, matching the
asynchronous shape of the dialog, and raw `onSendMessage` payloads of
extension sub-stages are not tracked.  `std::map` lookup is `lookupExt` on an
association list and `std::set` insertion/iteration is a lexicographically
sorted list (`setInsert`), matching the iteration order of the C++
containers.  `Option` results model C++ undefined behaviour (popping an empty
`std::queue`, calling through a null `shared_ptr`). -/

inductive ProtocolStage
  | Greeting
  | HelloResponse
  | Options
  | ReadyToSend
  | DeclaringSender
  | DeclaringRecipients
  | SendingData
  | AwaitingSendResponse
deriving DecidableEq

structure MessageContext where
  protocolStage : ProtocolStage
deriving DecidableEq

structure Extension where
  modifyMessage : MessageContext → List Char → List Char
  isExtraProtocolStageNeededHere : MessageContext → Bool
  handleServerMessage : MessageContext → ParsedMessage → Bool

/-- The slice of the external MessageHeaders collaborator the client consumes:
`GenerateRawHeaders`, `HasHeader("From")`, `GetHeaderValue("From")` and
`GetHeaderMultiValue("To")`. -/
structure MessageHeadersM where
  raw : List Char
  hasFrom : Bool
  fromValue : List Char
  toValues : List (List Char)

structure ClientState where
  extensions : List (List Char × Extension)
  supportedExtensionNames : List (List Char)
  serverConnection : Bool
  boundAddress : Nat
  readyOrBrokenCount : Nat
  currentMessageContext : MessageContext
  activeExtension : Option Extension
  headers : MessageHeadersM
  body : List Char
  recipients : List (List Char)
  dataReceived : List Char

inductive Output
  | sent (bytes : List Char)
  | readyResolved (value : Bool)
  | sendResolved (value : Bool)
  | closed
deriving DecidableEq

/-- `std::map::find` on the registered-extensions map. -/
def lookupExt : List (List Char × Extension) → List Char → Option Extension
  | [], _ => none
  | (n, e) :: rest, name => if n = name then some e else lookupExt rest name

/-- Lexicographic byte-string comparison (`operator<` of `std::string`). -/
def listCharLt : List Char → List Char → Bool
  | [], [] => false
  | [], _ :: _ => true
  | _ :: _, [] => false
  | a :: as, b :: bs =>
    if a < b then true else if b < a then false else listCharLt as bs

/-- `std::set<std::string>::insert`: keep the element list sorted without
duplicates. -/
def setInsert (x : List Char) : List (List Char) → List (List Char)
  | [] => [x]
  | y :: rest =>
    if listCharLt x y then x :: y :: rest
    else if x = y then y :: rest
    else y :: setInsert x rest

def sortedNames : List (List Char) → Bool
  | [] => true
  | [_] => true
  | a :: b :: rest => listCharLt a b && sortedNames (b :: rest)

/-- SwapOutReadyOrBrokenPromises + set_value(false) on each, then Close when
a connection exists (Client.cpp lines 235-243). -/
def OnHardFailure (st : ClientState) : ClientState × List Output :=
  ({ st with readyOrBrokenCount := 0 },
    List.replicate st.readyOrBrokenCount (Output.readyResolved false) ++
      (if st.serverConnection then [Output.closed] else []))

/-- SwapOutReadyOrBrokenPromises + set_value(true) on each (lines 249-254). -/
def OnReady (st : ClientState) : ClientState × List Output :=
  ({ st with readyOrBrokenCount := 0 },
    List.replicate st.readyOrBrokenCount (Output.readyResolved true))

/-- The poll loop of TransitionProtocolStage: the first supported extension
(in set-iteration order) whose IsExtraProtocolStageNeededHere returns true
becomes active. -/
def findActiveExtension (st : ClientState) (ctx : MessageContext) :
    List (List Char) → Option Extension
  | [] => none
  | name :: rest =>
    match lookupExt st.extensions name with
    | none => findActiveExtension st ctx rest
    | some ext =>
      if ext.isExtraProtocolStageNeededHere ctx then some ext
      else findActiveExtension st ctx rest

/-- Client.cpp lines 263-287. -/
def TransitionProtocolStage (st : ClientState) (next : ProtocolStage) :
    ClientState × List Output :=
  let ctx : MessageContext := { protocolStage := next }
  let act := findActiveExtension st ctx st.supportedExtensionNames
  let st1 := { st with activeExtension := act, currentMessageContext := ctx }
  if next = ProtocolStage.ReadyToSend ∧ act.isNone then OnReady st1 else (st1, [])

def OnMessageReady (st : ClientState) : ClientState × List Output :=
  TransitionProtocolStage st ProtocolStage.ReadyToSend

/-- sendCompleted.set_value(false) then OnMessageReady (lines 301-304). -/
def OnSoftFailure (st : ClientState) : ClientState × List Output :=
  let r := OnMessageReady st
  (r.1, Output.sendResolved false :: r.2)

/-- The ModifyMessage chain of SendMessageThroughExtensions (lines 472-481):
fold over the supported names in set-iteration order. -/
def chainModify (st : ClientState) (ctx : MessageContext) :
    List (List Char) → List Char → List Char
  | [], out => out
  | name :: rest, out =>
    match lookupExt st.extensions name with
    | none => chainModify st ctx rest out
    | some ext => chainModify st ctx rest (ext.modifyMessage ctx out)

def SendMessageThroughExtensions (st : ClientState) (input : List Char) : Output :=
  Output.sent
    (chainModify st st.currentMessageContext st.supportedExtensionNames input ++
      ['\r', '\n'])

/-- Client.cpp lines 708-717: recipients.front() is read and popped with NO
emptiness check; on an empty queue this is undefined behaviour, modelled as
`none`. -/
def AnnounceNextRecipient (st : ClientState) : Option (ClientState × List Output) :=
  match st.recipients with
  | [] => none
  | r :: rest =>
    let st1 := { st with recipients := rest }
    some (st1, [SendMessageThroughExtensions st1 ("RCPT TO:".toList ++ r)])

/-- The EHLO command with the bracketed dotted-decimal literal of the locally
bound IPv4 address (lines 517-526). -/
def ehloLine (addr : Nat) : List Char :=
  "EHLO [".toList ++
    Nat.toDigits 10 ((addr >>> 24) % 256) ++ ['.'] ++
    Nat.toDigits 10 ((addr >>> 16) % 256) ++ ['.'] ++
    Nat.toDigits 10 ((addr >>> 8) % 256) ++ ['.'] ++
    Nat.toDigits 10 (addr % 256) ++ "]\r\n".toList

/-- One arm of the protocol-stage switch of OnMessageReceived (lines
514-629).  The boolean result records whether the loop `return`s (stopping
any further queued message); `none` records undefined behaviour. -/
def handleMessage (st : ClientState) (m : ParsedMessage) :
    Option (ClientState × List Output × Bool) :=
  match st.currentMessageContext.protocolStage with
  | ProtocolStage.Greeting =>
    if m.code = 220 then
      let out := Output.sent (ehloLine st.boundAddress)
      let r := TransitionProtocolStage st ProtocolStage.Options
      some (r.1, out :: r.2, false)
    else
      let r := OnHardFailure st
      some (r.1, r.2, true)
  | ProtocolStage.HelloResponse =>
    if m.code = 250 then
      if m.last then
        let r := OnMessageReady st
        some (r.1, r.2, false)
      else
        let r := TransitionProtocolStage st ProtocolStage.Options
        some (r.1, r.2, false)
    else
      let r := OnHardFailure st
      some (r.1, r.2, true)
  | ProtocolStage.Options =>
    if m.code = 250 then
      let name := m.text.takeWhile (fun c => !(c = ' '))
      let st1 :=
        match lookupExt st.extensions name with
        | none => st
        | some _ =>
          { st with supportedExtensionNames := setInsert name st.supportedExtensionNames }
      if m.last then
        let r := OnMessageReady st1
        some (r.1, r.2, false)
      else
        some (st1, [], false)
    else
      let r := OnHardFailure st
      some (r.1, r.2, true)
  | ProtocolStage.ReadyToSend =>
    let r := OnHardFailure st
    some (r.1, r.2, true)
  | ProtocolStage.DeclaringSender =>
    if m.code = 250 then
      let r := TransitionProtocolStage st ProtocolStage.DeclaringRecipients
      let st1 := { r.1 with recipients := r.1.recipients ++ r.1.headers.toValues }
      match AnnounceNextRecipient st1 with
      | none => none
      | some a => some (a.1, r.2 ++ a.2, false)
    else
      let r := OnSoftFailure st
      some (r.1, r.2, true)
  | ProtocolStage.DeclaringRecipients =>
    if m.code = 250 then
      if st.recipients.isEmpty then
        let out := SendMessageThroughExtensions st "DATA".toList
        let r := TransitionProtocolStage st ProtocolStage.SendingData
        some (r.1, out :: r.2, false)
      else
        match AnnounceNextRecipient st with
        | none => none
        | some a => some (a.1, a.2, false)
    else
      let r := OnSoftFailure st
      some (r.1, r.2, true)
  | ProtocolStage.SendingData =>
    if m.code = 354 then
      let r := TransitionProtocolStage st ProtocolStage.AwaitingSendResponse
      some (r.1,
        r.2 ++ [Output.sent r.1.headers.raw, Output.sent r.1.body] ++
          (if sendingDataExtraCRLF r.1.body then [Output.sent ['\r', '\n']] else []) ++
          [Output.sent ['.', '\r', '\n']],
        false)
    else
      let r := OnSoftFailure st
      some (r.1, r.2, true)
  | ProtocolStage.AwaitingSendResponse =>
    let r := OnMessageReady st
    some (r.1, Output.sendResolved (decide (m.code = 250)) :: r.2, false)

/-- The dispatch loop of OnMessageReceived (lines 500-630): while an
extension is active, every reply goes to it (true continues, false is a hard
failure that stops the loop); otherwise the stage switch runs. -/
def processMessages : ClientState → List ParsedMessage → Option (ClientState × List Output)
  | st, [] => some (st, [])
  | st, m :: rest =>
    match st.activeExtension with
    | some ext =>
      if ext.handleServerMessage st.currentMessageContext m then
        processMessages st rest
      else
        some (OnHardFailure st)
    | none =>
      match handleMessage st m with
      | none => none
      | some (st1, outs, stop) =>
        if stop then some (st1, outs)
        else
          match processMessages st1 rest with
          | none => none
          | some (st2, outs2) => some (st2, outs ++ outs2)

inductive ClientEvent
  | bytesReceived (data : List Char)
  | broken
  | sendMail (headers : MessageHeadersM) (body : List Char)
  | readyOrBrokenCall
  | extensionStageComplete (success : Bool)
  | disconnect

/-- One externally triggered step of the client: a transport delivery, a
transport break, a SendMail or GetReadyOrBrokenFuture call, an extension
completing its sub-stage, or Disconnect. -/
def step (st : ClientState) (e : ClientEvent) : Option (ClientState × List Output) :=
  match e with
  | ClientEvent.bytesReceived data =>
    let a := AssembleLinesReceived st.dataReceived data
    let st1 := { st with dataReceived := a.2 }
    if a.1.isEmpty then some (st1, [])
    else
      match disassembleAll a.1 with
      | none => some (OnHardFailure st1)
      | some msgs => processMessages st1 msgs
  | ClientEvent.broken => some (OnHardFailure st)
  | ClientEvent.sendMail hs b =>
    if st.currentMessageContext.protocolStage = ProtocolStage.ReadyToSend ∧
        hs.hasFrom = true then
      let st1 := { st with headers := hs, body := ProcessBody b }
      let out := SendMessageThroughExtensions st1 ("MAIL FROM:".toList ++ hs.fromValue)
      let r := TransitionProtocolStage st1 ProtocolStage.DeclaringSender
      some (r.1, out :: r.2)
    else
      some (st, [Output.sendResolved false])
  | ClientEvent.readyOrBrokenCall =>
    some ({ st with readyOrBrokenCount := st.readyOrBrokenCount + 1 }, [])
  | ClientEvent.extensionStageComplete success =>
    if success then
      some (TransitionProtocolStage st st.currentMessageContext.protocolStage)
    else
      some (OnSoftFailure st)
  | ClientEvent.disconnect =>
    if st.serverConnection then
      some
        ({ st with
            serverConnection := false,
            currentMessageContext := { protocolStage := ProtocolStage.Greeting } },
          [Output.closed])
    else none

/-- Client::Impl::Connect (lines 659-703): Reset() is called on every
registered extension (extension-internal state only; no Client::Impl field is
touched), then the transport connect either yields a connection or null.
Nothing else in the client state — in particular `supportedExtensionNames` —
is modified. -/
def ClientConnect (st : ClientState) (connected : Bool) : ClientState × Bool :=
  if connected then ({ st with serverConnection := true }, true)
  else ({ st with serverConnection := false }, false)

/-- One complete run over a list of events, concatenating all outputs. -/
def run : ClientState → List ClientEvent → Option (ClientState × List Output)
  | st, [] => some (st, [])
  | st, e :: rest =>
    match step st e with
    | none => none
    | some (st1, outs) =>
      match run st1 rest with
      | none => none
      | some (st2, outs2) => some (st2, outs ++ outs2)

def isSendResolved : Output → Bool
  | Output.sent _ => false
  | Output.readyResolved _ => false
  | Output.sendResolved _ => true
  | Output.closed => false

def countSendResolved (outs : List Output) : Nat :=
  (outs.filter isSendResolved).length

def inFlight : ProtocolStage → Bool
  | ProtocolStage.Greeting => false
  | ProtocolStage.HelloResponse => false
  | ProtocolStage.Options => false
  | ProtocolStage.ReadyToSend => false
  | ProtocolStage.DeclaringSender => true
  | ProtocolStage.DeclaringRecipients => true
  | ProtocolStage.SendingData => true
  | ProtocolStage.AwaitingSendResponse => true

def emptyHeaders : MessageHeadersM :=
  { raw := [], hasFrom := false, fromValue := [], toValues := [] }

def baseState : ClientState :=
  { extensions := [], supportedExtensionNames := [], serverConnection := false,
    boundAddress := 0, readyOrBrokenCount := 0,
    currentMessageContext := { protocolStage := ProtocolStage.Greeting },
    activeExtension := none, headers := emptyHeaders, body := [],
    recipients := [], dataReceived := [] }

/-- A client mid-transaction: the sender was declared and the server is about
to accept it, with a `To` header carrying zero entries. -/
def c1State : ClientState :=
  { baseState with
      serverConnection := true,
      currentMessageContext := { protocolStage := ProtocolStage.DeclaringSender },
      headers :=
        { raw := [], hasFrom := true,
          fromValue := "<alex@example.com>".toList, toValues := [] } }

/-- Claim C1: when the server accepts the sender (reply 250 in the
DeclaringSender stage) and the `To` header has zero entries, the code does
NOT send `DATA`: it calls `recipients.front()` and `recipients.pop()` on an
empty `std::queue`, which is undefined behaviour (modelled as `none`).  The
claim (and the spec boundary behaviour it quotes) describes the intended
behaviour; the code is missing the emptiness check it performs in the
DeclaringRecipients stage. -/
theorem smtp_c1_empty_recipients_undefined :
    step c1State (ClientEvent.bytesReceived ['2', '5', '0', ' ', 'O', 'K', '\r', '\n']) =
      none := by
  rfl

/-- Claim C9: `Client::Disconnect` (Client.cpp lines 767-771) calls
`serverConnection->Close(true)` without a null check.  With no connection
ever established the call dereferences a null `shared_ptr` (undefined
behaviour, modelled as `none`); after one successful `Disconnect` the pointer
is null, so an immediately repeated call is likewise undefined — the
documented idempotence does not hold.  The second conjunct shows the first
call from a connected state does succeed, and the third that chaining a
second call onto it is undefined. -/
theorem smtp_c9_disconnect_null_deref :
    step baseState ClientEvent.disconnect = none ∧
      (step { baseState with serverConnection := true } ClientEvent.disconnect).isSome =
        true ∧
      ((step { baseState with serverConnection := true } ClientEvent.disconnect).bind
          (fun p => step p.1 ClientEvent.disconnect)) = none := by
  exact ⟨rfl, rfl, rfl⟩

/-- Claim C5 counterexample: a supported-extension name left over from an
earlier session ("STALE") survives a new connection attempt: `Connect` does
not clear `supportedExtensionNames`. -/
theorem smtp_c5_counterexample :
    (ClientConnect
        { baseState with supportedExtensionNames := ["STALE".toList] } true).1.supportedExtensionNames =
      ["STALE".toList] ∧
      ["STALE".toList] ≠ ([] : List (List Char)) := by
  exact ⟨rfl, by decide⟩

/-- Claim C5 amended: the supported-extensions set is NOT cleared when a new
connection attempt starts: `Connect` (which resets extension-internal state
and opens the transport) leaves both the supported-name set and the
registered-extension map untouched, whether or not the transport connect
succeeds, so names advertised by the server of an earlier session remain
supported in later sessions.  The set only ever grows, during the Options
stage. -/
theorem smtp_c5_amended (st : ClientState) (connected : Bool) :
    (ClientConnect st connected).1.supportedExtensionNames =
        st.supportedExtensionNames ∧
      (ClientConnect st connected).1.extensions = st.extensions := by
  rw [ClientConnect]
  cases connected <;> simp

/-! ### Extension consultation order (claim C3) -/

def extAppendA : Extension :=
  { modifyMessage := fun _ s => s ++ ['A'],
    isExtraProtocolStageNeededHere := fun _ => false,
    handleServerMessage := fun _ _ => false }

def extAppendZ : Extension :=
  { modifyMessage := fun _ s => s ++ ['Z'],
    isExtraProtocolStageNeededHere := fun _ => false,
    handleServerMessage := fun _ _ => false }

def nameAlpha : List Char := ['A', 'L', 'P', 'H', 'A']

def nameZulu : List Char := ['Z', 'U', 'L', 'U']

/-- A client in the Options stage with two registered extensions, about to
receive the server's capability lines. -/
def c3State : ClientState :=
  { baseState with
      serverConnection := true,
      currentMessageContext := { protocolStage := ProtocolStage.Options },
      extensions := [(nameAlpha, extAppendA), (nameZulu, extAppendZ)] }

/-- The server advertises ZULU first, then ALPHA (final line). -/
def c3Bytes : List Char :=
  ['2', '5', '0', '-', 'Z', 'U', 'L', 'U', '\r', '\n',
    '2', '5', '0', ' ', 'A', 'L', 'P', 'H', 'A', '\r', '\n']

/-- Claim C3 counterexample: after the server advertises ZULU then ALPHA, the
stored supported set is the lexicographically sorted [ALPHA, ZULU] (first
conjunct), and the modify_message chain applied to DATA appends A then Z —
the sorted-set iteration order — whereas chaining in the advertised order
ZULU, ALPHA would append Z then A (third conjunct); the two results differ
(fourth conjunct).  Extensions are therefore consulted in lexicographic name
order, not in the order the server advertised them. -/
theorem smtp_c3_counterexample :
    ((step c3State (ClientEvent.bytesReceived c3Bytes)).map
        (fun p => p.1.supportedExtensionNames)) = some [nameAlpha, nameZulu] ∧
      ((step c3State (ClientEvent.bytesReceived c3Bytes)).map
          (fun p => chainModify p.1 p.1.currentMessageContext
            p.1.supportedExtensionNames "DATA".toList)) =
        some ("DATA".toList ++ ['A', 'Z']) ∧
      chainModify c3State { protocolStage := ProtocolStage.ReadyToSend }
          [nameZulu, nameAlpha] "DATA".toList = "DATA".toList ++ ['Z', 'A'] ∧
      "DATA".toList ++ ['A', 'Z'] ≠ "DATA".toList ++ ['Z', 'A'] := by
  exact ⟨rfl, rfl, rfl, by decide⟩

theorem listCharLt_total : ∀ (x y : List Char),
    listCharLt x y = true ∨ x = y ∨ listCharLt y x = true := by
  intro x
  induction x with
  | nil =>
    intro y
    cases y with
    | nil => right; left; rfl
    | cons b bs => left; rfl
  | cons a as ih =>
    intro y
    cases y with
    | nil => right; right; rfl
    | cons b bs =>
      rcases lt_trichotomy a b with h | h | h
      · left
        rw [listCharLt]
        simp [h]
      · subst h
        rcases ih bs with h1 | h1 | h1
        · left
          rw [listCharLt]
          simp [lt_irrefl, h1]
        · right; left; rw [h1]
        · right; right
          rw [listCharLt]
          simp [lt_irrefl, h1]
      · right; right
        rw [listCharLt]
        simp [h, asymm h]

theorem sortedNames_two (a b : List Char) (l : List (List Char)) :
    sortedNames (a :: b :: l) = (listCharLt a b && sortedNames (b :: l)) := by
  rw [sortedNames]

theorem sortedNames_setInsert : ∀ (l : List (List Char)) (x : List Char),
    sortedNames l = true → sortedNames (setInsert x l) = true := by
  intro l
  induction l with
  | nil =>
    intro x _
    rfl
  | cons y rest ih =>
    intro x h
    rw [setInsert]
    by_cases hlt : listCharLt x y = true
    · rw [if_pos hlt, sortedNames_two]
      simp [hlt, h]
    · rw [if_neg hlt]
      by_cases heq : x = y
      · rw [if_pos heq]
        exact h
      · rw [if_neg heq]
        have hylt : listCharLt y x = true := by
          rcases listCharLt_total x y with h1 | h1 | h1
          · exact absurd h1 hlt
          · exact absurd h1 heq
          · exact h1
        cases rest with
        | nil =>
          rw [setInsert, sortedNames_two]
          simp only [hylt, Bool.true_and]
          rfl
        | cons z rest2 =>
          rw [sortedNames_two, Bool.and_eq_true] at h
          obtain ⟨hyz, hrest⟩ := h
          have hins : sortedNames (setInsert x (z :: rest2)) = true := ih x hrest
          rw [setInsert]
          by_cases hxz : listCharLt x z = true
          · rw [if_pos hxz, sortedNames_two, sortedNames_two]
            simp [hylt, hxz, hrest]
          · rw [if_neg hxz]
            by_cases hxez : x = z
            · rw [if_pos hxez, sortedNames_two]
              simp [hyz, hrest]
            · rw [if_neg hxez, sortedNames_two]
              rw [setInsert, if_neg hxz, if_neg hxez] at hins
              simp [hyz, hins]

/-- Claim C3 amended: the supported-extension set iterates in lexicographic
(sorted) name order — the iteration order of `std::set<std::string>` — and
therefore the modify_message chain and the per-transition polls visit
extensions in ascending name order, regardless of the order the server
advertised them (and regardless of registration order).  Formally: starting
from any sorted name set, any sequence of capability-line insertions leaves
the set sorted, so the fold in `chainModify` and the scan in
`findActiveExtension` run in ascending lexicographic order. -/
theorem smtp_c3_amended (start : List (List Char)) (names : List (List Char))
    (h : sortedNames start = true) :
    sortedNames (names.foldl (fun acc n => setInsert n acc) start) = true := by
  induction names generalizing start with
  | nil => exact h
  | cons n rest ih =>
    exact ih (setInsert n start) (sortedNames_setInsert start n h)

theorem smtp_c3_amended_witness :
    sortedNames ([nameZulu, nameAlpha].foldl (fun acc n => setInsert n acc) []) =
      true :=
  smtp_c3_amended [] [nameZulu, nameAlpha] (by rfl)

/-! ### Send-handle resolution (claim C6) -/

def c6Headers : MessageHeadersM :=
  { raw := [], hasFrom := true, fromValue := "<alex@example.com>".toList,
    toValues := ["<bob@example.com>".toList] }

def c6State : ClientState :=
  { baseState with
      serverConnection := true,
      currentMessageContext := { protocolStage := ProtocolStage.ReadyToSend } }

/-- Claim C6 counterexample: a SendMail call that passes its precondition
(second conjunct: the client really enters DeclaringSender, i.e. the mail
transaction starts) followed by a transport break produces ZERO resolutions
of the send handle (first conjunct): `OnHardFailure` resolves only the
ready-or-broken promises and never touches `sendCompleted`, so the handle of
an in-flight send is not resolved exactly once — it is never resolved. -/
theorem smtp_c6_counterexample :
    ((run c6State [ClientEvent.sendMail c6Headers ['h', 'i'], ClientEvent.broken]).map
        (fun p => countSendResolved p.2)) = some 0 ∧
      ((run c6State [ClientEvent.sendMail c6Headers ['h', 'i']]).map
          (fun p => p.1.currentMessageContext.protocolStage)) =
        some ProtocolStage.DeclaringSender := by
  exact ⟨rfl, rfl⟩

def noExts (st : ClientState) : Prop :=
  st.extensions = [] ∧ st.supportedExtensionNames = [] ∧ st.activeExtension = none

theorem countSendResolved_nil : countSendResolved [] = 0 := rfl

theorem countSendResolved_cons (x : Output) (l : List Output) :
    countSendResolved (x :: l) =
      (if isSendResolved x then 1 else 0) + countSendResolved l := by
  by_cases h : isSendResolved x = true
  · simp [countSendResolved, List.filter_cons, h, Nat.add_comm]
  · simp [countSendResolved, List.filter_cons, h]

theorem countSendResolved_append (a b : List Output) :
    countSendResolved (a ++ b) = countSendResolved a + countSendResolved b := by
  simp [countSendResolved, List.filter_append]

theorem countSendResolved_replicate (n : Nat) (b : Bool) :
    countSendResolved (List.replicate n (Output.readyResolved b)) = 0 := by
  induction n with
  | zero => rfl
  | succ k ih =>
    rw [List.replicate_succ, countSendResolved_cons, ih]
    rfl

theorem OnHardFailure_count (st : ClientState) :
    countSendResolved (OnHardFailure st).2 = 0 := by
  rw [OnHardFailure]
  rw [countSendResolved_append, countSendResolved_replicate]
  by_cases h : st.serverConnection = true
  · simp [h, countSendResolved_cons, isSendResolved, countSendResolved_nil]
  · simp [h, countSendResolved_nil]

theorem OnHardFailure_ctx (st : ClientState) :
    (OnHardFailure st).1.currentMessageContext = st.currentMessageContext := rfl

theorem OnHardFailure_noExts (st : ClientState) (h : noExts st) :
    noExts (OnHardFailure st).1 :=
  ⟨h.1, h.2.1, h.2.2⟩

theorem OnReady_count (st : ClientState) :
    countSendResolved (OnReady st).2 = 0 := by
  rw [OnReady]
  exact countSendResolved_replicate st.readyOrBrokenCount true

theorem transition_noExts (st : ClientState) (next : ProtocolStage) (h : noExts st) :
    (TransitionProtocolStage st next).1.currentMessageContext.protocolStage = next ∧
      noExts (TransitionProtocolStage st next).1 ∧
      countSendResolved (TransitionProtocolStage st next).2 = 0 ∧
      (TransitionProtocolStage st next).1.recipients = st.recipients ∧
      (TransitionProtocolStage st next).1.headers = st.headers := by
  obtain ⟨h1, h2, h3⟩ := h
  rw [TransitionProtocolStage, h2]
  rw [findActiveExtension]
  by_cases hrts : next = ProtocolStage.ReadyToSend
  · subst hrts
    rw [if_pos (⟨rfl, rfl⟩ :
      ProtocolStage.ReadyToSend = ProtocolStage.ReadyToSend ∧
        Option.isNone (none : Option Extension) = true)]
    rw [OnReady]
    exact ⟨rfl, ⟨h1, rfl, rfl⟩, countSendResolved_replicate _ true, rfl, rfl⟩
  · rw [if_neg (fun hcon => hrts hcon.1)]
    exact ⟨rfl, ⟨h1, rfl, rfl⟩, rfl, rfl, rfl⟩

theorem softFailure_noExts (st : ClientState) (h : noExts st) :
    (OnSoftFailure st).1.currentMessageContext.protocolStage =
        ProtocolStage.ReadyToSend ∧
      noExts (OnSoftFailure st).1 ∧
      countSendResolved (OnSoftFailure st).2 = 1 := by
  rw [OnSoftFailure, OnMessageReady]
  have ht := transition_noExts st ProtocolStage.ReadyToSend h
  refine ⟨ht.1, ht.2.1, ?_⟩
  rw [countSendResolved_cons, ht.2.2.1]
  rfl

theorem announce_facts (s : ClientState) (a : ClientState × List Output)
    (h : AnnounceNextRecipient s = some a) :
    a.1.currentMessageContext = s.currentMessageContext ∧
      (noExts s → noExts a.1) ∧ countSendResolved a.2 = 0 := by
  rw [AnnounceNextRecipient] at h
  rcases hrcp : s.recipients with _ | ⟨r, rest⟩
  · rw [hrcp] at h
    exact Option.noConfusion h
  · rw [hrcp] at h
    simp only [Option.some.injEq] at h
    subst h
    refine ⟨rfl, fun hx => ⟨hx.1, hx.2.1, hx.2.2⟩, ?_⟩
    rw [countSendResolved_cons]
    rfl

theorem handleMessage_noExts (st : ClientState) (m : ParsedMessage)
    (hx : noExts st) (st1 : ClientState) (outs : List Output) (stop : Bool)
    (h : handleMessage st m = some (st1, outs, stop)) :
    noExts st1 ∧
      countSendResolved outs ≤ 1 ∧
      (countSendResolved outs = 1 ↔
        (inFlight st.currentMessageContext.protocolStage = true ∧
          st1.currentMessageContext.protocolStage = ProtocolStage.ReadyToSend)) ∧
      (inFlight st.currentMessageContext.protocolStage = true →
        countSendResolved outs = 0 →
          inFlight st1.currentMessageContext.protocolStage = true) ∧
      (st.currentMessageContext.protocolStage = ProtocolStage.ReadyToSend →
        st1.currentMessageContext.protocolStage = ProtocolStage.ReadyToSend ∧
          countSendResolved outs = 0) ∧
      (inFlight st.currentMessageContext.protocolStage = false →
        ¬st.currentMessageContext.protocolStage = ProtocolStage.ReadyToSend →
          countSendResolved outs = 0 ∧
            inFlight st1.currentMessageContext.protocolStage = false) := by
  rw [handleMessage.eq_def] at h
  cases hstage : st.currentMessageContext.protocolStage with
  | Greeting =>
    rw [hstage] at h
    simp only [] at h
    by_cases hcode : m.code = 220
    · rw [if_pos hcode] at h
      simp only [Option.some.injEq, Prod.mk.injEq] at h
      obtain ⟨h1, h2, h3⟩ := h
      subst h1; subst h2; subst h3
      have ht := transition_noExts st ProtocolStage.Options hx
      have hcount : countSendResolved
          (Output.sent (ehloLine st.boundAddress) ::
            (TransitionProtocolStage st ProtocolStage.Options).2) = 0 := by
        rw [countSendResolved_cons, ht.2.2.1]
        rfl
      rw [hcount, ht.1]
      simp [ht.2.1, inFlight]
    · rw [if_neg hcode] at h
      simp only [Option.some.injEq, Prod.mk.injEq] at h
      obtain ⟨h1, h2, h3⟩ := h
      subst h1; subst h2; subst h3
      rw [OnHardFailure_count]
      have hctx : (OnHardFailure st).1.currentMessageContext.protocolStage =
          ProtocolStage.Greeting := by rw [OnHardFailure_ctx, hstage]
      rw [hctx]
      simp [OnHardFailure_noExts st hx, inFlight]
  | HelloResponse =>
    rw [hstage] at h
    simp only [] at h
    by_cases hcode : m.code = 250
    · rw [if_pos hcode] at h
      by_cases hlast : m.last = true
      · rw [if_pos hlast] at h
        simp only [Option.some.injEq, Prod.mk.injEq] at h
        obtain ⟨h1, h2, h3⟩ := h
        subst h1; subst h2; subst h3
        rw [OnMessageReady]
        have ht := transition_noExts st ProtocolStage.ReadyToSend hx
        rw [ht.2.2.1, ht.1]
        simp [ht.2.1, inFlight]
      · rw [if_neg hlast] at h
        simp only [Option.some.injEq, Prod.mk.injEq] at h
        obtain ⟨h1, h2, h3⟩ := h
        subst h1; subst h2; subst h3
        have ht := transition_noExts st ProtocolStage.Options hx
        rw [ht.2.2.1, ht.1]
        simp [ht.2.1, inFlight]
    · rw [if_neg hcode] at h
      simp only [Option.some.injEq, Prod.mk.injEq] at h
      obtain ⟨h1, h2, h3⟩ := h
      subst h1; subst h2; subst h3
      rw [OnHardFailure_count]
      have hctx : (OnHardFailure st).1.currentMessageContext.protocolStage =
          ProtocolStage.HelloResponse := by rw [OnHardFailure_ctx, hstage]
      rw [hctx]
      simp [OnHardFailure_noExts st hx, inFlight]
  | Options =>
    rw [hstage] at h
    simp only [] at h
    by_cases hcode : m.code = 250
    · rw [if_pos hcode] at h
      rw [hx.1] at h
      rw [lookupExt] at h
      by_cases hlast : m.last = true
      · rw [if_pos hlast] at h
        simp only [Option.some.injEq, Prod.mk.injEq] at h
        obtain ⟨h1, h2, h3⟩ := h
        subst h1; subst h2; subst h3
        rw [OnMessageReady]
        have ht := transition_noExts st ProtocolStage.ReadyToSend hx
        rw [ht.2.2.1, ht.1]
        simp [ht.2.1, inFlight]
      · rw [if_neg hlast] at h
        simp only [Option.some.injEq, Prod.mk.injEq] at h
        obtain ⟨h1, h2, h3⟩ := h
        subst h1; subst h2; subst h3
        rw [countSendResolved_nil]
        simp [hx, inFlight, hstage]
    · rw [if_neg hcode] at h
      simp only [Option.some.injEq, Prod.mk.injEq] at h
      obtain ⟨h1, h2, h3⟩ := h
      subst h1; subst h2; subst h3
      rw [OnHardFailure_count]
      have hctx : (OnHardFailure st).1.currentMessageContext.protocolStage =
          ProtocolStage.Options := by rw [OnHardFailure_ctx, hstage]
      rw [hctx]
      simp [OnHardFailure_noExts st hx, inFlight]
  | ReadyToSend =>
    rw [hstage] at h
    simp only [Option.some.injEq, Prod.mk.injEq] at h
    obtain ⟨h1, h2, h3⟩ := h
    subst h1; subst h2; subst h3
    rw [OnHardFailure_count]
    have hctx : (OnHardFailure st).1.currentMessageContext.protocolStage =
        ProtocolStage.ReadyToSend := by rw [OnHardFailure_ctx, hstage]
    rw [hctx]
    simp [OnHardFailure_noExts st hx, inFlight]
  | DeclaringSender =>
    rw [hstage] at h
    simp only [] at h
    by_cases hcode : m.code = 250
    · rw [if_pos hcode] at h
      have ht := transition_noExts st ProtocolStage.DeclaringRecipients hx
      rcases hann : AnnounceNextRecipient
          { (TransitionProtocolStage st ProtocolStage.DeclaringRecipients).1 with
              recipients :=
                (TransitionProtocolStage st ProtocolStage.DeclaringRecipients).1.recipients ++
                  (TransitionProtocolStage st ProtocolStage.DeclaringRecipients).1.headers.toValues }
          with _ | ⟨a⟩
      · rw [hann] at h
        exact Option.noConfusion h
      · rw [hann] at h
        simp only [Option.some.injEq, Prod.mk.injEq] at h
        obtain ⟨h1, h2, h3⟩ := h
        subst h1; subst h2; subst h3
        have ha := announce_facts _ a hann
        have hactx : a.1.currentMessageContext.protocolStage =
            ProtocolStage.DeclaringRecipients := by
          rw [ha.1]
          exact ht.1
        have hanoexts : noExts a.1 :=
          ha.2.1 ⟨ht.2.1.1, ht.2.1.2.1, ht.2.1.2.2⟩
        have hcount : countSendResolved
            ((TransitionProtocolStage st ProtocolStage.DeclaringRecipients).2 ++ a.2) = 0 := by
          rw [countSendResolved_append, ht.2.2.1, ha.2.2]
        rw [hcount, hactx]
        simp [hanoexts, inFlight]
    · rw [if_neg hcode] at h
      simp only [Option.some.injEq, Prod.mk.injEq] at h
      obtain ⟨h1, h2, h3⟩ := h
      subst h1; subst h2; subst h3
      have hs := softFailure_noExts st hx
      rw [hs.2.2, hs.1]
      simp [hs.2.1, inFlight]
  | DeclaringRecipients =>
    rw [hstage] at h
    simp only [] at h
    by_cases hcode : m.code = 250
    · rw [if_pos hcode] at h
      by_cases hemp : st.recipients.isEmpty = true
      · rw [if_pos hemp] at h
        simp only [Option.some.injEq, Prod.mk.injEq] at h
        obtain ⟨h1, h2, h3⟩ := h
        subst h1; subst h2; subst h3
        have ht := transition_noExts st ProtocolStage.SendingData hx
        have hcount : countSendResolved
            (SendMessageThroughExtensions st "DATA".toList ::
              (TransitionProtocolStage st ProtocolStage.SendingData).2) = 0 := by
          rw [countSendResolved_cons, ht.2.2.1, SendMessageThroughExtensions]
          rfl
        rw [hcount, ht.1]
        simp [ht.2.1, inFlight]
      · rw [if_neg hemp] at h
        rcases hann : AnnounceNextRecipient st with _ | ⟨a⟩
        · rw [hann] at h
          exact Option.noConfusion h
        · rw [hann] at h
          simp only [Option.some.injEq, Prod.mk.injEq] at h
          obtain ⟨h1, h2, h3⟩ := h
          subst h1; subst h2; subst h3
          have ha := announce_facts st a hann
          have hactx : a.1.currentMessageContext.protocolStage =
              ProtocolStage.DeclaringRecipients := by
            rw [ha.1, hstage]
          rw [ha.2.2, hactx]
          simp [ha.2.1 hx, inFlight]
    · rw [if_neg hcode] at h
      simp only [Option.some.injEq, Prod.mk.injEq] at h
      obtain ⟨h1, h2, h3⟩ := h
      subst h1; subst h2; subst h3
      have hs := softFailure_noExts st hx
      rw [hs.2.2, hs.1]
      simp [hs.2.1, inFlight]
  | SendingData =>
    rw [hstage] at h
    simp only [] at h
    by_cases hcode : m.code = 354
    · rw [if_pos hcode] at h
      simp only [Option.some.injEq, Prod.mk.injEq] at h
      obtain ⟨h1, h2, h3⟩ := h
      subst h1; subst h2; subst h3
      have ht := transition_noExts st ProtocolStage.AwaitingSendResponse hx
      have hcount : countSendResolved
          ((TransitionProtocolStage st ProtocolStage.AwaitingSendResponse).2 ++
            [Output.sent (TransitionProtocolStage st ProtocolStage.AwaitingSendResponse).1.headers.raw,
              Output.sent (TransitionProtocolStage st ProtocolStage.AwaitingSendResponse).1.body] ++
            (if sendingDataExtraCRLF (TransitionProtocolStage st ProtocolStage.AwaitingSendResponse).1.body
              then [Output.sent ['\r', '\n']] else []) ++
            [Output.sent ['.', '\r', '\n']]) = 0 := by
        rw [countSendResolved_append, countSendResolved_append, countSendResolved_append,
          ht.2.2.1]
        by_cases hb : sendingDataExtraCRLF
            (TransitionProtocolStage st ProtocolStage.AwaitingSendResponse).1.body = true
        · rw [if_pos hb]
          rfl
        · rw [if_neg hb]
          rfl
      rw [hcount, ht.1]
      simp [ht.2.1, inFlight]
    · rw [if_neg hcode] at h
      simp only [Option.some.injEq, Prod.mk.injEq] at h
      obtain ⟨h1, h2, h3⟩ := h
      subst h1; subst h2; subst h3
      have hs := softFailure_noExts st hx
      rw [hs.2.2, hs.1]
      simp [hs.2.1, inFlight]
  | AwaitingSendResponse =>
    rw [hstage] at h
    simp only [Option.some.injEq, Prod.mk.injEq] at h
    obtain ⟨h1, h2, h3⟩ := h
    subst h1; subst h2; subst h3
    rw [OnMessageReady]
    have ht := transition_noExts st ProtocolStage.ReadyToSend hx
    have hcount : countSendResolved
        (Output.sendResolved (decide (m.code = 250)) ::
          (TransitionProtocolStage st ProtocolStage.ReadyToSend).2) = 1 := by
      rw [countSendResolved_cons, ht.2.2.1]
      rfl
    rw [hcount, ht.1]
    simp [ht.2.1, inFlight]

theorem processMessages_noExts : ∀ (msgs : List ParsedMessage) (st st2 : ClientState)
    (outs : List Output), noExts st → processMessages st msgs = some (st2, outs) →
    noExts st2 ∧
      countSendResolved outs ≤ 1 ∧
      (countSendResolved outs = 1 →
        inFlight st.currentMessageContext.protocolStage = true ∧
          st2.currentMessageContext.protocolStage = ProtocolStage.ReadyToSend) ∧
      (inFlight st.currentMessageContext.protocolStage = true →
        st2.currentMessageContext.protocolStage = ProtocolStage.ReadyToSend →
          countSendResolved outs = 1) ∧
      (st.currentMessageContext.protocolStage = ProtocolStage.ReadyToSend →
        st2.currentMessageContext.protocolStage = ProtocolStage.ReadyToSend ∧
          countSendResolved outs = 0) ∧
      (inFlight st.currentMessageContext.protocolStage = false →
        ¬st.currentMessageContext.protocolStage = ProtocolStage.ReadyToSend →
          countSendResolved outs = 0 ∧
            inFlight st2.currentMessageContext.protocolStage = false) := by
  intro msgs
  induction msgs with
  | nil =>
    intro st st2 outs hx h
    rw [processMessages] at h
    simp only [Option.some.injEq, Prod.mk.injEq] at h
    obtain ⟨h1, h2⟩ := h
    subst h1
    subst h2
    refine ⟨hx, by rw [countSendResolved_nil]; omega, ?_, ?_, ?_, ?_⟩
    · intro hc
      rw [countSendResolved_nil] at hc
      exact absurd hc (by decide)
    · intro hif hrts
      rw [hrts] at hif
      exact absurd hif (by decide)
    · intro hrts
      exact ⟨hrts, countSendResolved_nil⟩
    · intro hif _
      exact ⟨countSendResolved_nil, hif⟩
  | cons m rest ih =>
    intro st st2 outs hx h
    rw [processMessages] at h
    rw [hx.2.2] at h
    simp only [] at h
    rcases hm : handleMessage st m with _ | ⟨⟨st1, outs1, stop⟩⟩
    · rw [hm] at h
      simp only [] at h
      exact Option.noConfusion h
    · rw [hm] at h
      simp only [] at h
      have hfacts := handleMessage_noExts st m hx st1 outs1 stop hm
      by_cases hstop : stop = true
      · rw [if_pos hstop] at h
        simp only [Option.some.injEq, Prod.mk.injEq] at h
        obtain ⟨h1, h2⟩ := h
        subst h1
        subst h2
        refine ⟨hfacts.1, hfacts.2.1, ?_, ?_, hfacts.2.2.2.2.1, hfacts.2.2.2.2.2⟩
        · intro hc
          exact hfacts.2.2.1.mp hc
        · intro hif hrts
          exact hfacts.2.2.1.mpr ⟨hif, hrts⟩
      · rw [if_neg hstop] at h
        rcases hrest : processMessages st1 rest with _ | ⟨⟨st2x, outs2⟩⟩
        · rw [hrest] at h
          exact Option.noConfusion h
        · rw [hrest] at h
          simp only [Option.some.injEq, Prod.mk.injEq] at h
          obtain ⟨h1, h2⟩ := h
          subst h1
          subst h2
          have hih := ih st1 st2x outs2 hfacts.1 hrest
          rw [countSendResolved_append]
          by_cases hc1 : countSendResolved outs1 = 1
          · obtain ⟨hifst, hst1rts⟩ := hfacts.2.2.1.mp hc1
            have hr := hih.2.2.2.2.1 hst1rts
            rw [hc1, hr.2]
            refine ⟨hih.1, by omega, ?_, ?_, ?_, ?_⟩
            · intro _
              exact ⟨hifst, hr.1⟩
            · intro _ _
              rfl
            · intro hrts0
              rw [hrts0] at hifst
              exact absurd hifst (by decide)
            · intro hif6 _
              rw [hif6] at hifst
              exact absurd hifst (by decide)
          · have hc1z : countSendResolved outs1 = 0 := by
              have := hfacts.2.1
              omega
            rw [hc1z]
            by_cases hif : inFlight st.currentMessageContext.protocolStage = true
            · have hif1 := hfacts.2.2.2.1 hif hc1z
              refine ⟨hih.1, by have := hih.2.1; omega, ?_, ?_, ?_, ?_⟩
              · intro hc
                rw [Nat.zero_add] at hc
                exact ⟨hif, (hih.2.2.1 hc).2⟩
              · intro _ hrts
                rw [Nat.zero_add]
                exact hih.2.2.2.1 hif1 hrts
              · intro hrts0
                rw [hrts0] at hif
                exact absurd hif (by decide)
              · intro hif6 _
                rw [hif6] at hif
                exact absurd hif (by decide)
            · have hifF : inFlight st.currentMessageContext.protocolStage = false := by
                cases hval : inFlight st.currentMessageContext.protocolStage
                · rfl
                · exact absurd hval hif
              by_cases hrts0 : st.currentMessageContext.protocolStage =
                  ProtocolStage.ReadyToSend
              · have h5 := hfacts.2.2.2.2.1 hrts0
                have hr := hih.2.2.2.2.1 h5.1
                rw [hr.2]
                refine ⟨hih.1, by omega, ?_, ?_, ?_, ?_⟩
                · intro hc
                  exact absurd hc (by decide)
                · intro hifx _
                  rw [hifF] at hifx
                  exact absurd hifx (by decide)
                · intro _
                  exact ⟨hr.1, rfl⟩
                · intro _ hne
                  exact absurd hrts0 hne
              · have h6 := hfacts.2.2.2.2.2 hifF hrts0
                by_cases hst1rts : st1.currentMessageContext.protocolStage =
                    ProtocolStage.ReadyToSend
                · have hr := hih.2.2.2.2.1 hst1rts
                  rw [hr.2]
                  refine ⟨hih.1, by omega, ?_, ?_, ?_, ?_⟩
                  · intro hc
                    exact absurd hc (by decide)
                  · intro hifx _
                    rw [hifF] at hifx
                    exact absurd hifx (by decide)
                  · intro hrtsx
                    exact absurd hrtsx hrts0
                  · intro _ _
                    refine ⟨rfl, ?_⟩
                    rw [hr.1]
                    decide
                · have hr := hih.2.2.2.2.2 h6.2 hst1rts
                  rw [hr.1]
                  refine ⟨hih.1, by omega, ?_, ?_, ?_, ?_⟩
                  · intro hc
                    exact absurd hc (by decide)
                  · intro hifx _
                    rw [hifF] at hifx
                    exact absurd hifx (by decide)
                  · intro hrtsx
                    exact absurd hrtsx hrts0
                  · intro _ _
                    exact ⟨rfl, hr.2⟩

/-- Claim C6 amended: the send handle is resolved at most once, and its
resolutions coincide with the machine leaving an in-flight transaction stage
for ReadyToSend — but a hard failure or transport break while a transaction
is in flight resolves only the ready-or-broken handles and leaves the send
handle unresolved forever, so "exactly once" does not hold on those paths.
Formally, for extension-free clients: a transport break resolves the send
handle zero times and leaves the protocol stage unchanged (first part); an
inbound packet resolves it at most once, a resolution happens only when a
transaction was in flight and ends with the machine in ReadyToSend, and
conversely any passage from an in-flight stage to ReadyToSend within the
packet resolves it exactly once — the resolution is simultaneous with that
transition into ReadyToSend (second part). -/
theorem smtp_c6_amended :
    (∀ (st st2 : ClientState) (outs : List Output),
      noExts st → step st ClientEvent.broken = some (st2, outs) →
        countSendResolved outs = 0 ∧
          st2.currentMessageContext = st.currentMessageContext) ∧
      (∀ (st : ClientState) (data : List Char) (st2 : ClientState) (outs : List Output),
        noExts st → step st (ClientEvent.bytesReceived data) = some (st2, outs) →
          countSendResolved outs ≤ 1 ∧
            (countSendResolved outs = 1 →
              inFlight st.currentMessageContext.protocolStage = true ∧
                st2.currentMessageContext.protocolStage = ProtocolStage.ReadyToSend) ∧
            (inFlight st.currentMessageContext.protocolStage = true →
              st2.currentMessageContext.protocolStage = ProtocolStage.ReadyToSend →
                countSendResolved outs = 1)) := by
  constructor
  · intro st st2 outs hx h
    rw [step] at h
    simp only [Option.some.injEq] at h
    have h1 : (OnHardFailure st).1 = st2 := by rw [h]
    have h2 : (OnHardFailure st).2 = outs := by rw [h]
    subst h1
    subst h2
    exact ⟨OnHardFailure_count st, OnHardFailure_ctx st⟩
  · intro st data st2 outs hx h
    rw [step] at h
    by_cases hemp : (AssembleLinesReceived st.dataReceived data).1.isEmpty = true
    · rw [if_pos hemp] at h
      simp only [Option.some.injEq, Prod.mk.injEq] at h
      obtain ⟨h1, h2⟩ := h
      subst h1
      subst h2
      refine ⟨by rw [countSendResolved_nil]; omega, ?_, ?_⟩
      · intro hc
        rw [countSendResolved_nil] at hc
        exact absurd hc (by decide)
      · intro hif hrts
        have hsame : st.currentMessageContext.protocolStage =
            ProtocolStage.ReadyToSend := hrts
        rw [hsame] at hif
        exact absurd hif (by decide)
    · rw [if_neg hemp] at h
      rcases hdis : disassembleAll (AssembleLinesReceived st.dataReceived data).1
          with _ | ⟨msgs⟩
      · rw [hdis] at h
        simp only [Option.some.injEq] at h
        have h1 : (OnHardFailure { st with
            dataReceived := (AssembleLinesReceived st.dataReceived data).2 }).1 = st2 := by
          rw [h]
        have h2 : (OnHardFailure { st with
            dataReceived := (AssembleLinesReceived st.dataReceived data).2 }).2 = outs := by
          rw [h]
        subst h1
        subst h2
        rw [OnHardFailure_count]
        refine ⟨by omega, ?_, ?_⟩
        · intro hc
          exact absurd hc (by decide)
        · intro hif hrts
          have hsame : st.currentMessageContext.protocolStage =
              ProtocolStage.ReadyToSend := hrts
          rw [hsame] at hif
          exact absurd hif (by decide)
      · rw [hdis] at h
        have hp := processMessages_noExts msgs
          { st with dataReceived := (AssembleLinesReceived st.dataReceived data).2 }
          st2 outs ⟨hx.1, hx.2.1, hx.2.2⟩ h
        exact ⟨hp.2.1, hp.2.2.1, fun hif hrts => hp.2.2.2.1 hif hrts⟩

theorem smtp_c6_amended_witness :
    noExts c6State ∧
      countSendResolved (OnHardFailure c6State).2 = 0 ∧
      (OnHardFailure c6State).1.currentMessageContext = c6State.currentMessageContext := by
  have h := smtp_c6_amended.1 c6State (OnHardFailure c6State).1 (OnHardFailure c6State).2
    ⟨rfl, rfl, rfl⟩ rfl
  exact ⟨⟨rfl, rfl, rfl⟩, h.1, h.2⟩
